import Mathlib

/-!
Verification of `PhoneBook_Python_FastAPI/app.py`.

The file embeds, shallowly:
* the two regex validators `validate_phone_number` and `validate_full_name`
  (app.py lines 20-43), via a small regex AST `RE` whose matcher follows
  Python `re.match` semantics: the match is anchored at the start, `$`
  matches at the end of the string or just before a single trailing
  newline, `(?=...)`/`(?!...)` are zero-width lookaheads, and a match need
  not reach the end of the string unless the pattern demands it.
  Character classes `\d` and `\s` are modelled by their ASCII subsets
  (Python 3 also matches some non-ASCII Unicode characters for these
  classes; every string relevant to the claims is ASCII).
* the four HTTP handlers `list_phonebook`, `add_person`, `delete_by_name`,
  `delete_by_number` (app.py lines 91-234) as pure functions over an
  explicit state `AppState` holding the phonebook table and the audit-log
  table as lists in insertion order (SQLAlchemy `session.add` appends,
  `query(...).first()` returns the first row in insertion order,
  `session.delete` removes that row).  The auto-assigned integer primary
  keys and the server-assigned audit timestamp are never read by the
  handlers and are omitted from the record types.  An unset SQLAlchemy
  string column is `NULL`; it is modelled as `none : Option String`.
-/

/-- Character classes occurring in the two regexes of app.py.
`\d` and `\s` are modelled as their ASCII subsets. -/
inductive CC where
  | digit      -- \d
  | ws         -- \s
  | alpha      -- [A-Za-z]
  | upper      -- [A-Z]
  | anyNoNL    -- .  (any character except newline; re.DOTALL is not set)
  | plusCh     -- literal +
  | dotCh      -- literal .
  | hyphen     -- literal -
  | comma      -- literal ,
  | apos       -- literal apostrophe
  | lparen     -- literal (
  | rparen     -- literal )
  | dotDash    -- [.-]
  | wsDotDash  -- [\s.-]
  | wsAlpha    -- [\sA-Za-z]
deriving DecidableEq

/-- The apostrophe character (code point 39). -/
def aposChar : Char := Char.ofNat 39

/-- Whether a character is ASCII whitespace in the sense of Python `\s`
(space, tab, newline, carriage return, vertical tab, form feed). -/
def isPyWs (c : Char) : Bool :=
  c = ' ' || c = Char.ofNat 9 || c = Char.ofNat 10 || c = Char.ofNat 13 ||
  c = Char.ofNat 11 || c = Char.ofNat 12

/-- Whether a character belongs to a class. -/
def ccMatch : CC → Char → Bool
  | .digit, c => c.isDigit
  | .ws, c => isPyWs c
  | .alpha, c => (65 ≤ c.toNat && c.toNat ≤ 90) || (97 ≤ c.toNat && c.toNat ≤ 122)
  | .upper, c => 65 ≤ c.toNat && c.toNat ≤ 90
  | .anyNoNL, c => c ≠ Char.ofNat 10
  | .plusCh, c => c = '+'
  | .dotCh, c => c = '.'
  | .hyphen, c => c = '-'
  | .comma, c => c = ','
  | .apos, c => c = aposChar
  | .lparen, c => c = '('
  | .rparen, c => c = ')'
  | .dotDash, c => c = '.' || c = '-'
  | .wsDotDash, c => isPyWs c || c = '.' || c = '-'
  | .wsAlpha, c =>
      isPyWs c || (65 ≤ c.toNat && c.toNat ≤ 90) || (97 ≤ c.toNat && c.toNat ≤ 122)

/-- Regex AST: exactly the constructs the two patterns of app.py use.
`star` (unbounded repetition) and `repAtMost` (the `{0,n}` bounded
quantifier) are restricted to a character class because every
`*`/`+`/`{m,n}` in the source applies to a single class, except one
group repetition that is expanded through `opt`/`seq`.  `eos` is Python
`$` (no re.MULTILINE): it matches at the end of the string or just
before a trailing newline, consuming nothing. -/
inductive RE where
  | eps
  | cls (cc : CC)
  | seq (a b : RE)
  | alt (a b : RE)
  | star (cc : CC)
  | repAtMost (n : Nat) (cc : CC)
  | eos
  | nla (a : RE)   -- negative lookahead (?!a), zero-width
  | pla (a : RE)   -- positive lookahead (?=a), zero-width

/-- All suffixes reachable from `s` by consuming zero or more characters
of class `p` — the semantics of `star`. -/
def starSuffixes (p : Char → Bool) : List Char → List (List Char)
  | [] => [[]]
  | c :: t => (c :: t) :: (if p c then starSuffixes p t else [])

/-- All suffixes reachable from `s` by consuming at most `n` characters
of class `p` — the semantics of `repAtMost`. -/
def repAtMostSuffixes : Nat → (Char → Bool) → List Char → List (List Char)
  | 0, _, s => [s]
  | n + 1, p, s =>
      s :: (match s with
            | [] => []
            | c :: t => if p c then repAtMostSuffixes n p t else [])

/-- Backtracking matcher: the list of suffixes left after some match of
`r` on a prefix of `s`.  The match of the whole pattern `r` on `s`
(as in Python `re.match`) succeeds iff this list is nonempty. -/
def mch : RE → List Char → List (List Char)
  | .eps, s => [s]
  | .cls cc, s =>
      match s with
      | [] => []
      | c :: t => if ccMatch cc c then [t] else []
  | .seq a b, s => (mch a s).flatMap (fun u => mch b u)
  | .alt a b, s => mch a s ++ mch b s
  | .star cc, s => starSuffixes (ccMatch cc) s
  | .repAtMost n cc, s => repAtMostSuffixes n (ccMatch cc) s
  | .eos, s => if s = [] ∨ s = [Char.ofNat 10] then [s] else []
  | .nla a, s => if mch a s = [] then [s] else []
  | .pla a, s => if mch a s = [] then [] else [s]

/-- Python `re.match(pattern, s)` viewed as a Boolean. -/
def reMatch (r : RE) (s : String) : Bool :=
  !(mch r s.data).isEmpty

/-- Zero-or-one occurrences: `r?`. -/
def opt (r : RE) : RE := .alt .eps r

/-- Exactly `n` consecutive occurrences of `r`. -/
def reps : Nat → RE → RE
  | 0, _ => .eps
  | n + 1, r => .seq r (reps n r)

/-- At most `n` consecutive occurrences of `r`: `(r(r...?)?)?`. -/
def optUpTo : Nat → RE → RE
  | 0, _ => .eps
  | n + 1, r => opt (.seq r (optUpTo n r))

/-- Between `m` and `n` occurrences of a class: the bounded quantifier
`cc{m,n}`. -/
def repRange (m n : Nat) (cc : CC) : RE :=
  .seq (reps m (.cls cc)) (.repAtMost (n - m) cc)

/-- One or more occurrences of a class: `cc+`. -/
def plusCC (cc : CC) : RE := .seq (.cls cc) (.star cc)

/-- The phone-number pattern of app.py lines 21-24:
`^(?!(\d{6,}))\+?\d{0,3}\s?(\d\s|(\(\d{2}\)\s)|(\(\d{3}\)))?[.-]?\d{2,5}[\s.-]?\d{2,5}[\s.-]?\d{1,9}$`. -/
def phonePattern : RE :=
  .seq (.nla (.seq (reps 6 (.cls .digit)) (.star .digit)))
  (.seq (opt (.cls .plusCh))
  (.seq (repRange 0 3 .digit)
  (.seq (opt (.cls .ws))
  (.seq (opt (.alt (.seq (.cls .digit) (.cls .ws))
         (.alt (.seq (.cls .lparen) (.seq (.cls .digit) (.seq (.cls .digit)
                (.seq (.cls .rparen) (.cls .ws)))))
               (.seq (.cls .lparen) (.seq (.cls .digit) (.seq (.cls .digit)
                (.seq (.cls .digit) (.cls .rparen))))))))
  (.seq (opt (.cls .dotDash))
  (.seq (repRange 2 5 .digit)
  (.seq (opt (.cls .wsDotDash))
  (.seq (repRange 2 5 .digit)
  (.seq (opt (.cls .wsDotDash))
  (.seq (repRange 1 9 .digit)
        .eos))))))))))

/-- app.py `validate_phone_number`. -/
def validate_phone_number (phone_number : String) : Bool :=
  reMatch phonePattern phone_number

/-- Name alternative 1: `([A-Za-z]+\s?){1,3}`, expanded as one
mandatory copy of the group followed by up to two optional copies. -/
def nameAlt1 : RE :=
  .seq (.seq (plusCC .alpha) (opt (.cls .ws)))
    (optUpTo 2 (.seq (plusCC .alpha) (opt (.cls .ws))))

/-- Name alternative 2: `[A-Za-z]+,\s[A-Za-z]+[\sA-Za-z]*`. -/
def nameAlt2 : RE :=
  .seq (plusCC .alpha) (.seq (.cls .comma) (.seq (.cls .ws)
    (.seq (plusCC .alpha) (.star .wsAlpha))))

/-- Name alternative 3: `([A-Za-z]+\s)[A-Za-z]'[A-Za-z]+(\-[A-Za-z]+)?`. -/
def nameAlt3 : RE :=
  .seq (.seq (plusCC .alpha) (.cls .ws))
    (.seq (.cls .alpha) (.seq (.cls .apos) (.seq (plusCC .alpha)
      (opt (.seq (.cls .hyphen) (plusCC .alpha))))))

/-- Name alternative 4: `[A-Za-z]'[A-Za-z]+\,\s[A-Za-z]+\s[A-Z]\.`. -/
def nameAlt4 : RE :=
  .seq (.cls .alpha) (.seq (.cls .apos) (.seq (plusCC .alpha)
    (.seq (.cls .comma) (.seq (.cls .ws) (.seq (plusCC .alpha)
      (.seq (.cls .ws) (.seq (.cls .upper) (.cls .dotCh))))))))

/-- Name alternative 5: `[A-Za-z]+\s[A-Za-z]\.\s[A-Za-z]+`. -/
def nameAlt5 : RE :=
  .seq (plusCC .alpha) (.seq (.cls .ws) (.seq (.cls .alpha)
    (.seq (.cls .dotCh) (.seq (.cls .ws) (plusCC .alpha)))))

/-- Name alternative 6: `[A-Za-z]+\s[A-Za-z]\.\s[A-Z]\'[A-Za-z]+`. -/
def nameAlt6 : RE :=
  .seq (plusCC .alpha) (.seq (.cls .ws) (.seq (.cls .alpha)
    (.seq (.cls .dotCh) (.seq (.cls .ws) (.seq (.cls .upper)
      (.seq (.cls .apos) (plusCC .alpha)))))))

/-- Name alternative 7: `[A-Za-z]+\,\s[A-Za-z]+\s[A-Z]\.`. -/
def nameAlt7 : RE :=
  .seq (plusCC .alpha) (.seq (.cls .comma) (.seq (.cls .ws)
    (.seq (plusCC .alpha) (.seq (.cls .ws) (.seq (.cls .upper)
      (.cls .dotCh))))))

/-- The seven shape alternatives of the full-name pattern. -/
def nameAlts : RE :=
  .alt nameAlt1 (.alt nameAlt2 (.alt nameAlt3 (.alt nameAlt4
    (.alt nameAlt5 (.alt nameAlt6 nameAlt7)))))

/-- The full-name pattern of app.py lines 31-39:
`^(?=.{1,35}$)(alt1|...|alt7)$`. -/
def namePattern : RE :=
  .seq (.pla (.seq (repRange 1 35 .anyNoNL) .eos))
    (.seq nameAlts .eos)

/-- app.py `validate_full_name`. -/
def validate_full_name (name : String) : Bool :=
  reMatch namePattern name

/-! Handler model (app.py lines 84-234). -/

/-- Pydantic request model `Person` (app.py lines 85-87). -/
structure Person where
  full_name : String
  phone_number : String
deriving DecidableEq

/-- A row of the `phonebook` table (SQLAlchemy model `PhoneBook`,
app.py lines 57-62); the auto-assigned integer primary key is never read
by any handler and is omitted. -/
structure PhoneBook where
  full_name : String
  phone_number : String
deriving DecidableEq

/-- A row of the `audit_log` table (SQLAlchemy model `AuditLog`,
app.py lines 65-72); the primary key and the server-assigned timestamp
are omitted.  A string column left unset (as `full_name`/`phone_number`
are for the list action) is SQL `NULL`, modelled as `none`. -/
structure AuditLog where
  action : String
  full_name : Option String
  phone_number : Option String
deriving DecidableEq

/-- The two stores: the phonebook table and the audit-log table, each as
a list of rows in insertion order. -/
structure AppState where
  phonebook : List PhoneBook
  audit_log : List AuditLog
deriving DecidableEq

/-- Outcome of a handler call: a successful JSON payload, or an
`HTTPException(status_code, detail)`. -/
inductive HandlerResult (α : Type) where
  | ok (value : α)
  | error (status : Nat) (detail : String)
deriving DecidableEq

/-- The fixed generic message raised for malformed input. -/
def invalidInputMsg : String :=
  "Invalid input. Please check your response and try again."

/-- GET /PhoneBook/list (app.py lines 91-106): query all phonebook rows,
append an audit entry with action "list" (name/number columns unset),
return the queried rows. -/
def list_phonebook (st : AppState) : List PhoneBook × AppState :=
  (st.phonebook,
   AppState.mk st.phonebook
     (st.audit_log ++ [AuditLog.mk ("list") none none]))

/-- POST /PhoneBook/add (app.py lines 109-156): validate the name, then
the number; reject when the number, then when the name, is already
present (`query(...).first()` is the first matching row in insertion
order); otherwise insert the row and append an "add" audit entry. -/
def add_person (person : Person) (st : AppState) :
    HandlerResult String × AppState :=
  if validate_full_name person.full_name = false then
    (.error 400 invalidInputMsg, st)
  else if validate_phone_number person.phone_number = false then
    (.error 400 invalidInputMsg, st)
  else if (st.phonebook.find?
      (fun r => r.phone_number == person.phone_number)).isSome then
    (.error 400 ("Phone number already exists in the database"), st)
  else if (st.phonebook.find?
      (fun r => r.full_name == person.full_name)).isSome then
    (.error 400 ("Person already exists in the database"), st)
  else
    (.ok ("Person added successfully"),
     AppState.mk
       (st.phonebook ++ [PhoneBook.mk person.full_name person.phone_number])
       (st.audit_log ++
        [AuditLog.mk ("add") (some person.full_name)
          (some person.phone_number)]))

/-- PUT /PhoneBook/deleteByName (app.py lines 159-194): validate the
name; find the first row with that name, 404 when absent; otherwise
delete that row and append a "delete-by-name" audit entry carrying the
deleted row's stored name and number. -/
def delete_by_name (full_name : String) (st : AppState) :
    HandlerResult String × AppState :=
  if validate_full_name full_name = false then
    (.error 400 invalidInputMsg, st)
  else
    match st.phonebook.find? (fun r => r.full_name == full_name) with
    | none => (.error 404 ("Person not found in the database"), st)
    | some person =>
        (.ok ("Person deleted successfully"),
         AppState.mk
           (st.phonebook.eraseP (fun r => r.full_name == full_name))
           (st.audit_log ++
            [AuditLog.mk ("delete-by-name") (some person.full_name)
              (some person.phone_number)]))

/-- PUT /PhoneBook/deleteByNumber (app.py lines 197-234): symmetric to
delete-by-name, keyed on the phone number, action tag
"delete-by-number". -/
def delete_by_number (phone_number : String) (st : AppState) :
    HandlerResult String × AppState :=
  if validate_phone_number phone_number = false then
    (.error 400 invalidInputMsg, st)
  else
    match st.phonebook.find? (fun r => r.phone_number == phone_number) with
    | none => (.error 404 ("Person not found in the database"), st)
    | some person =>
        (.ok ("Person deleted successfully"),
         AppState.mk
           (st.phonebook.eraseP (fun r => r.phone_number == phone_number))
           (st.audit_log ++
            [AuditLog.mk ("delete-by-number") (some person.full_name)
              (some person.phone_number)]))

/-- The uniqueness invariant of the data model: `full_name` unique
across the phonebook store, and `phone_number` unique across it. -/
def UniqueState (st : AppState) : Prop :=
  st.phonebook.Pairwise (fun a b => a.full_name ≠ b.full_name) ∧
  st.phonebook.Pairwise (fun a b => a.phone_number ≠ b.phone_number)

/-! Static analyses of a pattern, used to bound what any match consumes. -/

/-- Every character class occurring at a consuming position of `r`
satisfies `f`.  Lookaheads consume nothing, so their bodies are
unconstrained. -/
def clsOnly (f : CC → Bool) : RE → Bool
  | .eps => true
  | .cls cc => f cc
  | .seq a b => clsOnly f a && clsOnly f b
  | .alt a b => clsOnly f a && clsOnly f b
  | .star cc => f cc
  | .repAtMost _ cc => f cc
  | .eos => true
  | .nla _ => true
  | .pla _ => true

/-- Every match of `r` surely consumes at least one character of the
class `cc0`. -/
def needsCC (cc0 : CC) : RE → Bool
  | .eps => false
  | .cls cc => cc == cc0
  | .seq a b => needsCC cc0 a || needsCC cc0 b
  | .alt a b => needsCC cc0 a && needsCC cc0 b
  | .star _ => false
  | .repAtMost _ _ => false
  | .eos => false
  | .nla _ => false
  | .pla _ => false

/-- Lower bound on the number of `\d`-class characters any match of `r`
consumes.  Classes other than `\d` may also match digits; counting them
as zero keeps the bound sound. -/
def minDigits : RE → Nat
  | .eps => 0
  | .cls cc => if cc = .digit then 1 else 0
  | .seq a b => minDigits a + minDigits b
  | .alt a b => min (minDigits a) (minDigits b)
  | .star _ => 0
  | .repAtMost _ _ => 0
  | .eos => 0
  | .nla _ => 0
  | .pla _ => 0

/-- `r` contains no unbounded repetition at a consuming position. -/
def starFree : RE → Bool
  | .eps => true
  | .cls _ => true
  | .seq a b => starFree a && starFree b
  | .alt a b => starFree a && starFree b
  | .star _ => false
  | .repAtMost _ _ => true
  | .eos => true
  | .nla _ => true
  | .pla _ => true

/-- Lower bound on the number of characters any match of `r` consumes. -/
def minLen : RE → Nat
  | .eps => 0
  | .cls _ => 1
  | .seq a b => minLen a + minLen b
  | .alt a b => min (minLen a) (minLen b)
  | .star _ => 0
  | .repAtMost _ _ => 0
  | .eos => 0
  | .nla _ => 0
  | .pla _ => 0

/-- Upper bound on the number of characters any match of a star-free `r`
consumes (meaningless below a `star`, which `starFree` excludes). -/
def maxLen : RE → Nat
  | .eps => 0
  | .cls _ => 1
  | .seq a b => maxLen a + maxLen b
  | .alt a b => max (maxLen a) (maxLen b)
  | .star _ => 0
  | .repAtMost n _ => n
  | .eos => 0
  | .nla _ => 0
  | .pla _ => 0

/-- Number of decimal-digit characters in a string. -/
def digitCount (s : String) : Nat := s.data.countP (fun c => c.isDigit)

/-- Length of the leading contiguous run of decimal digits. -/
def leadingDigitRun (s : String) : Nat :=
  (s.data.takeWhile (fun c => c.isDigit)).length

/-! Concrete values used to exercise the theorems. -/

/-- A state with empty phonebook and empty audit log. -/
def emptyState : AppState := AppState.mk [] []

/-- A one-row phonebook with an empty audit log. -/
def oneState : AppState :=
  AppState.mk [PhoneBook.mk ("John Smith") ("12345")] []

/-- A well-formed add request. -/
def pJohn : Person := Person.mk ("John Smith") ("12345")

/-- A 36-character string: 35 letters followed by a newline. -/
def longNameStr : String :=
  String.mk (List.replicate 35 ('a') ++ [Char.ofNat 10])

/-- A hyphenated name containing an apostrophe. -/
def hyphenName : String :=
  "Anne O" ++ String.singleton aposChar ++ "Hara-Smith"

/-! Generic lemmas about the matcher. -/

theorem mem_mch_eps {s t : List Char} : t ∈ mch .eps s ↔ t = s := by
  simp [mch]

theorem mem_mch_seq {a b : RE} {s t : List Char} :
    t ∈ mch (.seq a b) s ↔ ∃ u, u ∈ mch a s ∧ t ∈ mch b u := by
  simp [mch, List.mem_flatMap]

theorem mem_mch_alt {a b : RE} {s t : List Char} :
    t ∈ mch (.alt a b) s ↔ t ∈ mch a s ∨ t ∈ mch b s := by
  simp [mch]

theorem mem_mch_cls {cc : CC} {s t : List Char} :
    t ∈ mch (.cls cc) s ↔ ∃ c, s = c :: t ∧ ccMatch cc c = true := by
  cases s with
  | nil => simp [mch]
  | cons c u =>
      simp only [mch]
      constructor
      · intro h
        split at h
        · next hc =>
            rw [List.mem_singleton] at h
            exact ⟨c, by rw [h], hc⟩
        · simp at h
      · rintro ⟨d, heq, hd⟩
        injection heq with h1 h2
        subst h1; subst h2
        simp [hd]

theorem mem_mch_eos {s t : List Char} :
    t ∈ mch .eos s ↔ t = s ∧ (s = [] ∨ s = [Char.ofNat 10]) := by
  simp only [mch]
  split
  · next h => simp [h]
  · next h => simp [h]

theorem mem_mch_nla {a : RE} {s t : List Char} :
    t ∈ mch (.nla a) s ↔ mch a s = [] ∧ t = s := by
  simp only [mch]
  split
  · next h => simp [h]
  · next h => simp [h]

theorem mem_mch_pla {a : RE} {s t : List Char} :
    t ∈ mch (.pla a) s ↔ mch a s ≠ [] ∧ t = s := by
  simp only [mch]
  split
  · next h => simp [h]
  · next h => simp [h]

theorem mem_starSuffixes {p : Char → Bool} {s t : List Char} :
    t ∈ starSuffixes p s → ∃ u, s = u ++ t ∧ ∀ c ∈ u, p c = true := by
  induction s with
  | nil =>
      intro h
      simp [starSuffixes] at h
      exact ⟨[], by simp [h], by simp⟩
  | cons c s ih =>
      intro h
      simp only [starSuffixes] at h
      rcases List.mem_cons.mp h with h1 | h1
      · exact ⟨[], by simp [h1], by simp⟩
      · by_cases hc : p c = true
        · rw [if_pos hc] at h1
          rcases ih h1 with ⟨u, rfl, hu⟩
          refine ⟨c :: u, by simp, ?_⟩
          intro d hd
          rcases List.mem_cons.mp hd with rfl | hd
          exacts [hc, hu d hd]
        · rw [if_neg hc] at h1
          simp at h1

theorem self_mem_starSuffixes (p : Char → Bool) (s : List Char) :
    s ∈ starSuffixes p s := by
  cases s <;> simp [starSuffixes]

theorem mem_repAtMostSuffixes {p : Char → Bool} :
    ∀ (n : Nat) (s t : List Char), t ∈ repAtMostSuffixes n p s →
      ∃ u, s = u ++ t ∧ u.length ≤ n ∧ ∀ c ∈ u, p c = true := by
  intro n
  induction n with
  | zero =>
      intro s t h
      simp [repAtMostSuffixes] at h
      exact ⟨[], by simp [h], by simp, by simp⟩
  | succ n ih =>
      intro s t h
      simp only [repAtMostSuffixes] at h
      rcases List.mem_cons.mp h with h1 | h1
      · exact ⟨[], by simp [h1], by simp, by simp⟩
      · cases s with
        | nil => simp at h1
        | cons c s =>
            simp only at h1
            by_cases hc : p c = true
            · rw [if_pos hc] at h1
              rcases ih s t h1 with ⟨u, rfl, hlen, hu⟩
              refine ⟨c :: u, by simp, by simpa using Nat.succ_le_succ hlen, ?_⟩
              intro d hd
              rcases List.mem_cons.mp hd with rfl | hd
              exacts [hc, hu d hd]
            · rw [if_neg hc] at h1
              simp at h1

/-- `clsOnly` holds for the everywhere-true filter. -/
theorem clsOnly_true : ∀ r : RE, clsOnly (fun _ => true) r = true := by
  intro r
  induction r <;> simp [clsOnly, *]

/-- Any match of `r` on `s` consumes a prefix: the leftover is a suffix,
and every consumed character is matched by some class of `r` allowed by
`f`. -/
theorem mch_clsOnly {f : CC → Bool} {P : Char → Prop}
    (hf : ∀ cc c, f cc = true → ccMatch cc c = true → P c) :
    ∀ r : RE, clsOnly f r = true → ∀ s t, t ∈ mch r s →
      ∃ u, s = u ++ t ∧ ∀ c ∈ u, P c := by
  intro r
  induction r with
  | eps =>
      intro _ s t ht
      rw [mem_mch_eps] at ht
      exact ⟨[], by simp [ht], by simp⟩
  | cls cc =>
      intro hok s t ht
      rcases mem_mch_cls.mp ht with ⟨c, rfl, hc⟩
      refine ⟨[c], rfl, ?_⟩
      intro d hd
      obtain rfl := List.mem_singleton.mp hd
      exact hf cc d hok hc
  | seq a b iha ihb =>
      intro hok s t ht
      rcases mem_mch_seq.mp ht with ⟨u, hu, htu⟩
      have hok2 : clsOnly f a = true ∧ clsOnly f b = true := by
        simpa [clsOnly] using hok
      rcases iha hok2.1 s u hu with ⟨p1, rfl, hp1⟩
      rcases ihb hok2.2 u t htu with ⟨p2, hu2, hp2⟩
      subst hu2
      refine ⟨p1 ++ p2, (List.append_assoc p1 p2 t).symm, ?_⟩
      intro c hc
      rcases List.mem_append.mp hc with h | h
      exacts [hp1 c h, hp2 c h]
  | alt a b iha ihb =>
      intro hok s t ht
      have hok2 : clsOnly f a = true ∧ clsOnly f b = true := by
        simpa [clsOnly] using hok
      rcases mem_mch_alt.mp ht with h | h
      exacts [iha hok2.1 s t h, ihb hok2.2 s t h]
  | star cc =>
      intro hok s t ht
      have ht2 : t ∈ starSuffixes (ccMatch cc) s := ht
      rcases mem_starSuffixes ht2 with ⟨u, rfl, hu⟩
      exact ⟨u, rfl, fun c hc => hf cc c hok (hu c hc)⟩
  | repAtMost n cc =>
      intro hok s t ht
      have ht2 : t ∈ repAtMostSuffixes n (ccMatch cc) s := ht
      rcases mem_repAtMostSuffixes n s t ht2 with ⟨u, rfl, _, hu⟩
      exact ⟨u, rfl, fun c hc => hf cc c hok (hu c hc)⟩
  | eos =>
      intro _ s t ht
      obtain ⟨rfl, _⟩ := mem_mch_eos.mp ht
      exact ⟨[], by simp, by simp⟩
  | nla a ih =>
      intro _ s t ht
      obtain ⟨_, rfl⟩ := mem_mch_nla.mp ht
      exact ⟨[], by simp, by simp⟩
  | pla a ih =>
      intro _ s t ht
      obtain ⟨_, rfl⟩ := mem_mch_pla.mp ht
      exact ⟨[], by simp, by simp⟩

/-- Any leftover of a match is a suffix of the input. -/
theorem mch_suffix (r : RE) (s t : List Char) (h : t ∈ mch r s) :
    ∃ u, s = u ++ t := by
  have hf : ∀ cc c, (fun _ : CC => true) cc = true → ccMatch cc c = true → True :=
    fun _ _ _ _ => trivial
  rcases mch_clsOnly hf r (clsOnly_true r) s t h with ⟨u, h1, _⟩
  exact ⟨u, h1⟩

/-- If `r` surely consumes a `cc0`-class character, every match consumed
one. -/
theorem mch_needsCC (cc0 : CC) :
    ∀ r : RE, needsCC cc0 r = true → ∀ s t, t ∈ mch r s →
      ∃ u, s = u ++ t ∧ ∃ c ∈ u, ccMatch cc0 c = true := by
  intro r
  induction r with
  | eps => intro hok; simp [needsCC] at hok
  | cls cc =>
      intro hok s t ht
      rcases mem_mch_cls.mp ht with ⟨c, rfl, hc⟩
      have hcc : cc = cc0 := by simpa [needsCC] using hok
      subst hcc
      exact ⟨[c], rfl, c, List.mem_singleton.mpr rfl, hc⟩
  | seq a b iha ihb =>
      intro hok s t ht
      rcases mem_mch_seq.mp ht with ⟨u, hu, htu⟩
      have hor : needsCC cc0 a = true ∨ needsCC cc0 b = true := by
        simpa [needsCC] using hok
      rcases hor with hA | hB
      · rcases iha hA s u hu with ⟨p1, rfl, c, hc, hcm⟩
        rcases mch_suffix b u t htu with ⟨p2, hu2⟩
        subst hu2
        exact ⟨p1 ++ p2, (List.append_assoc p1 p2 t).symm, c,
               List.mem_append.mpr (Or.inl hc), hcm⟩
      · rcases mch_suffix a s u hu with ⟨p1, rfl⟩
        rcases ihb hB u t htu with ⟨p2, hu2, c, hc, hcm⟩
        subst hu2
        exact ⟨p1 ++ p2, (List.append_assoc p1 p2 t).symm, c,
               List.mem_append.mpr (Or.inr hc), hcm⟩
  | alt a b iha ihb =>
      intro hok s t ht
      have h2 : needsCC cc0 a = true ∧ needsCC cc0 b = true := by
        simpa [needsCC] using hok
      rcases mem_mch_alt.mp ht with h | h
      exacts [iha h2.1 s t h, ihb h2.2 s t h]
  | star cc => intro hok; simp [needsCC] at hok
  | repAtMost n cc => intro hok; simp [needsCC] at hok
  | eos => intro hok; simp [needsCC] at hok
  | nla a ih => intro hok; simp [needsCC] at hok
  | pla a ih => intro hok; simp [needsCC] at hok

/-- Any match of `r` consumes at least `minDigits r` digit characters. -/
theorem mch_minDigits :
    ∀ r : RE, ∀ s t, t ∈ mch r s →
      ∃ u, s = u ++ t ∧ minDigits r ≤ u.countP (fun c => c.isDigit) := by
  intro r
  induction r with
  | eps =>
      intro s t ht
      rw [mem_mch_eps] at ht
      exact ⟨[], by simp [ht], by simp [minDigits]⟩
  | cls cc =>
      intro s t ht
      rcases mem_mch_cls.mp ht with ⟨c, rfl, hc⟩
      refine ⟨[c], rfl, ?_⟩
      by_cases h : cc = CC.digit
      · subst h
        have hd : c.isDigit = true := hc
        simp [minDigits, hd]
      · simp [minDigits, h]
  | seq a b iha ihb =>
      intro s t ht
      rcases mem_mch_seq.mp ht with ⟨u, hu, htu⟩
      rcases iha s u hu with ⟨p1, rfl, h1⟩
      rcases ihb u t htu with ⟨p2, hu2, h2⟩
      subst hu2
      refine ⟨p1 ++ p2, (List.append_assoc p1 p2 t).symm, ?_⟩
      rw [List.countP_append]
      show minDigits a + minDigits b ≤ _
      omega
  | alt a b iha ihb =>
      intro s t ht
      rcases mem_mch_alt.mp ht with h | h
      · rcases iha s t h with ⟨u, rfl, h1⟩
        refine ⟨u, rfl, ?_⟩
        have h2 : minDigits (.alt a b) ≤ minDigits a := min_le_left _ _
        omega
      · rcases ihb s t h with ⟨u, rfl, h1⟩
        refine ⟨u, rfl, ?_⟩
        have h2 : minDigits (.alt a b) ≤ minDigits b := min_le_right _ _
        omega
  | star cc =>
      intro s t ht
      have ht2 : t ∈ starSuffixes (ccMatch cc) s := ht
      rcases mem_starSuffixes ht2 with ⟨u, rfl, _⟩
      exact ⟨u, rfl, by simp [minDigits]⟩
  | repAtMost n cc =>
      intro s t ht
      have ht2 : t ∈ repAtMostSuffixes n (ccMatch cc) s := ht
      rcases mem_repAtMostSuffixes n s t ht2 with ⟨u, rfl, _, _⟩
      exact ⟨u, rfl, by simp [minDigits]⟩
  | eos =>
      intro s t ht
      obtain ⟨rfl, _⟩ := mem_mch_eos.mp ht
      exact ⟨[], by simp, by simp [minDigits]⟩
  | nla a ih =>
      intro s t ht
      obtain ⟨_, rfl⟩ := mem_mch_nla.mp ht
      exact ⟨[], by simp, by simp [minDigits]⟩
  | pla a ih =>
      intro s t ht
      obtain ⟨_, rfl⟩ := mem_mch_pla.mp ht
      exact ⟨[], by simp, by simp [minDigits]⟩

/-- For a star-free `r`, the consumed prefix length of any match lies
between `minLen r` and `maxLen r`. -/
theorem mch_lenBounds :
    ∀ r : RE, starFree r = true → ∀ s t, t ∈ mch r s →
      ∃ u, s = u ++ t ∧ minLen r ≤ u.length ∧ u.length ≤ maxLen r := by
  intro r
  induction r with
  | eps =>
      intro _ s t ht
      rw [mem_mch_eps] at ht
      exact ⟨[], by simp [ht], by simp [minLen], by simp [maxLen]⟩
  | cls cc =>
      intro _ s t ht
      rcases mem_mch_cls.mp ht with ⟨c, rfl, _⟩
      exact ⟨[c], rfl, by simp [minLen], by simp [maxLen]⟩
  | seq a b iha ihb =>
      intro hok s t ht
      have hok2 : starFree a = true ∧ starFree b = true := by
        simpa [starFree] using hok
      rcases mem_mch_seq.mp ht with ⟨u, hu, htu⟩
      rcases iha hok2.1 s u hu with ⟨p1, rfl, h1a, h1b⟩
      rcases ihb hok2.2 u t htu with ⟨p2, hu2, h2a, h2b⟩
      subst hu2
      refine ⟨p1 ++ p2, (List.append_assoc p1 p2 t).symm, ?_, ?_⟩
      · rw [List.length_append]
        show minLen a + minLen b ≤ _
        omega
      · rw [List.length_append]
        show _ ≤ maxLen a + maxLen b
        omega
  | alt a b iha ihb =>
      intro hok s t ht
      have hok2 : starFree a = true ∧ starFree b = true := by
        simpa [starFree] using hok
      rcases mem_mch_alt.mp ht with h | h
      · rcases iha hok2.1 s t h with ⟨u, rfl, h1, h2⟩
        refine ⟨u, rfl, ?_, ?_⟩
        · have h3 : minLen (.alt a b) ≤ minLen a := min_le_left _ _
          omega
        · have h3 : maxLen a ≤ maxLen (.alt a b) := le_max_left _ _
          omega
      · rcases ihb hok2.2 s t h with ⟨u, rfl, h1, h2⟩
        refine ⟨u, rfl, ?_, ?_⟩
        · have h3 : minLen (.alt a b) ≤ minLen b := min_le_right _ _
          omega
        · have h3 : maxLen b ≤ maxLen (.alt a b) := le_max_right _ _
          omega
  | star cc => intro hok; simp [starFree] at hok
  | repAtMost n cc =>
      intro _ s t ht
      have ht2 : t ∈ repAtMostSuffixes n (ccMatch cc) s := ht
      rcases mem_repAtMostSuffixes n s t ht2 with ⟨u, rfl, hlen, _⟩
      exact ⟨u, rfl, by simp [minLen], by simpa [maxLen] using hlen⟩
  | eos =>
      intro _ s t ht
      obtain ⟨rfl, _⟩ := mem_mch_eos.mp ht
      exact ⟨[], by simp, by simp [minLen], by simp [maxLen]⟩
  | nla a ih =>
      intro _ s t ht
      obtain ⟨_, rfl⟩ := mem_mch_nla.mp ht
      exact ⟨[], by simp, by simp [minLen], by simp [maxLen]⟩
  | pla a ih =>
      intro _ s t ht
      obtain ⟨_, rfl⟩ := mem_mch_pla.mp ht
      exact ⟨[], by simp, by simp [minLen], by simp [maxLen]⟩

/-- When the first `n` characters of `s` are digits, `\d{n}` matches. -/
theorem reps_digit_mem :
    ∀ (n : Nat) (s : List Char),
      n ≤ (s.takeWhile (fun c => c.isDigit)).length →
      ∃ t, t ∈ mch (reps n (.cls .digit)) s := by
  intro n
  induction n with
  | zero =>
      intro s _
      exact ⟨s, by simp [reps, mch]⟩
  | succ n ih =>
      intro s hs
      cases s with
      | nil =>
          simp only [List.takeWhile_nil, List.length_nil] at hs
          omega
      | cons c u =>
          by_cases hc : c.isDigit = true
          · have hn : n ≤ (u.takeWhile (fun c => c.isDigit)).length := by
              rw [List.takeWhile_cons, if_pos hc] at hs
              simp only [List.length_cons] at hs
              omega
            rcases ih u hn with ⟨t, ht⟩
            refine ⟨t, ?_⟩
            show t ∈ mch (.seq (.cls .digit) (reps n (.cls .digit))) (c :: u)
            exact mem_mch_seq.mpr ⟨u, mem_mch_cls.mpr ⟨c, rfl, hc⟩, ht⟩
          · rw [List.takeWhile_cons, if_neg hc] at hs
            simp only [List.length_nil] at hs
            omega

/-- When the input starts with six digits, the guard pattern `\d{6,}`
matches some prefix. -/
theorem mch_sixDigits_ne_nil {s : List Char}
    (h : 6 ≤ (s.takeWhile (fun c => c.isDigit)).length) :
    mch (.seq (reps 6 (.cls .digit)) (.star .digit)) s ≠ [] := by
  rcases reps_digit_mem 6 s h with ⟨t, ht⟩
  have hm : t ∈ mch (.seq (reps 6 (.cls .digit)) (.star .digit)) s :=
    mem_mch_seq.mpr ⟨t, ht, self_mem_starSuffixes _ t⟩
  exact List.ne_nil_of_mem hm

/-- A sequence fails when its first component fails. -/
theorem mch_seq_nil_of_left {a b : RE} {s : List Char} (h : mch a s = []) :
    mch (.seq a b) s = [] := by
  show (mch a s).flatMap (fun u => mch b u) = []
  rw [h]
  rfl

/-- A negative lookahead fails when its body matches. -/
theorem mch_nla_nil_of_ne {a : RE} {s : List Char} (h : mch a s ≠ []) :
    mch (.nla a) s = [] := by
  show (if mch a s = [] then [s] else []) = []
  rw [if_neg h]

/-- A Boolean match means a nonempty suffix list. -/
theorem reMatch_ne_nil {r : RE} {s : String} (h : reMatch r s = true) :
    mch r s.data ≠ [] := by
  intro h0
  unfold reMatch at h
  rw [h0] at h
  simp at h

/-- An empty suffix list means the Boolean match is false. -/
theorem reMatch_eq_false {r : RE} {s : String} (h : mch r s.data = []) :
    reMatch r s = false := by
  unfold reMatch
  rw [h]
  rfl

/-! Inversion lemmas for the handlers. -/

/-- A successful add implies both validations passed, both duplicate
checks found nothing, and the new state appends one phonebook row and
one audit entry. -/
theorem add_person_ok_inv {p : Person} {st st' : AppState} {r : String}
    (h : add_person p st = (.ok r, st')) :
    validate_full_name p.full_name = true ∧
    validate_phone_number p.phone_number = true ∧
    st.phonebook.find? (fun x => x.phone_number == p.phone_number) = none ∧
    st.phonebook.find? (fun x => x.full_name == p.full_name) = none ∧
    r = "Person added successfully" ∧
    st' = AppState.mk
      (st.phonebook ++ [PhoneBook.mk p.full_name p.phone_number])
      (st.audit_log ++
       [AuditLog.mk ("add") (some p.full_name) (some p.phone_number)]) := by
  unfold add_person at h
  split_ifs at h with h1 h2 h3 h4
  · exact absurd h (by simp)
  · exact absurd h (by simp)
  · exact absurd h (by simp)
  · exact absurd h (by simp)
  · simp only [Bool.not_eq_false] at h1 h2
    rw [Option.not_isSome_iff_eq_none] at h3 h4
    injection h with hA hB
    injection hA with hr
    exact ⟨h1, h2, h3, h4, hr.symm, hB.symm⟩

/-- A successful delete-by-name implies the name validated, some row
with that name was found first, and the new state erases that row and
appends one audit entry carrying the found row's fields. -/
theorem delete_by_name_ok_inv {n r : String} {st st' : AppState}
    (h : delete_by_name n st = (.ok r, st')) :
    validate_full_name n = true ∧
    ∃ c, st.phonebook.find? (fun x => x.full_name == n) = some c ∧
      c.full_name = n ∧ r = "Person deleted successfully" ∧
      st' = AppState.mk (st.phonebook.eraseP (fun x => x.full_name == n))
        (st.audit_log ++
         [AuditLog.mk ("delete-by-name") (some c.full_name)
           (some c.phone_number)]) := by
  unfold delete_by_name at h
  split_ifs at h with h1
  · exact absurd h (by simp)
  · simp only [Bool.not_eq_false] at h1
    cases hfind : st.phonebook.find? (fun x => x.full_name == n) with
    | none =>
        rw [hfind] at h
        exact absurd h (by simp)
    | some c =>
        rw [hfind] at h
        injection h with hA hB
        injection hA with hr
        have hcn : c.full_name = n := by
          simpa using List.find?_some hfind
        exact ⟨h1, c, rfl, hcn, hr.symm, hB.symm⟩

/-- A successful delete-by-number, symmetric to delete-by-name. -/
theorem delete_by_number_ok_inv {num r : String} {st st' : AppState}
    (h : delete_by_number num st = (.ok r, st')) :
    validate_phone_number num = true ∧
    ∃ c, st.phonebook.find? (fun x => x.phone_number == num) = some c ∧
      c.phone_number = num ∧ r = "Person deleted successfully" ∧
      st' = AppState.mk (st.phonebook.eraseP (fun x => x.phone_number == num))
        (st.audit_log ++
         [AuditLog.mk ("delete-by-number") (some c.full_name)
           (some c.phone_number)]) := by
  unfold delete_by_number at h
  split_ifs at h with h1
  · exact absurd h (by simp)
  · simp only [Bool.not_eq_false] at h1
    cases hfind : st.phonebook.find? (fun x => x.phone_number == num) with
    | none =>
        rw [hfind] at h
        exact absurd h (by simp)
    | some c =>
        rw [hfind] at h
        injection h with hA hB
        injection hA with hr
        have hcn : c.phone_number = num := by
          simpa using List.find?_some hfind
        exact ⟨h1, c, rfl, hcn, hr.symm, hB.symm⟩

/-- Looking up in an extended table: when the old table has no match,
the result is the lookup in the appended rows. -/
theorem find?_append_none {α : Type} {f : α → Bool} {l1 l2 : List α}
    (h : l1.find? f = none) : (l1 ++ l2).find? f = l2.find? f := by
  rw [List.find?_append, h]
  rfl

/-- C7: for every state of the contact store, the list handler returns
the full collection of contacts, leaves the contact store unchanged, and
appends exactly one audit entry with action "list" and unset name and
number fields. -/
theorem list_returns_all_and_logs_once (st : AppState) :
    (list_phonebook st).1 = st.phonebook ∧
    ((list_phonebook st).2).phonebook = st.phonebook ∧
    ((list_phonebook st).2).audit_log =
      st.audit_log ++ [AuditLog.mk ("list") none none] :=
  ⟨rfl, rfl, rfl⟩

/-- C4: whenever an add request fails, the handler returns status 400
and the state — contact store and audit store — is unchanged, so audit
logging happens only on the success path. -/
theorem add_failure_400_and_unchanged {p : Person} {st st' : AppState}
    {code : Nat} {d : String}
    (h : add_person p st = (.error code d, st')) :
    code = 400 ∧ st' = st := by
  unfold add_person at h
  split_ifs at h <;>
    first
      | (injection h with hA hB
         injection hA with hc hd
         exact ⟨hc.symm, hB.symm⟩)
      | exact absurd h (by simp)

/-- C4 witness: an add with a malformed (empty) name fails with 400 and
leaves the empty state unchanged. -/
theorem add_failure_400_and_unchanged_witness :
    (400 : Nat) = 400 ∧ emptyState = emptyState :=
  add_failure_400_and_unchanged
    (show add_person (Person.mk ("") ("12345")) emptyState =
        (.error 400 invalidInputMsg, emptyState) from by decide)

/-- C5: deleting a validly formatted but absent key yields 404 with the
not-found message and leaves both stores unchanged, for both delete
handlers. -/
theorem delete_missing_not_found {n num : String} {st : AppState}
    (hn : validate_full_name n = true)
    (hnum : validate_phone_number num = true)
    (h1 : st.phonebook.find? (fun x => x.full_name == n) = none)
    (h2 : st.phonebook.find? (fun x => x.phone_number == num) = none) :
    delete_by_name n st =
      (.error 404 ("Person not found in the database"), st) ∧
    delete_by_number num st =
      (.error 404 ("Person not found in the database"), st) := by
  constructor
  · simp [delete_by_name, hn, h1]
  · simp [delete_by_number, hnum, h2]

/-- C5 witness: deletes on the empty store with well-formed keys. -/
theorem delete_missing_not_found_witness :
    delete_by_name ("John Smith") emptyState =
      (.error 404 ("Person not found in the database"), emptyState) ∧
    delete_by_number ("12345") emptyState =
      (.error 404 ("Person not found in the database"), emptyState) :=
  delete_missing_not_found (by decide) (by decide) (by rfl) (by rfl)

/-- C1: every successful add, delete-by-name and delete-by-number call
appends exactly one audit entry whose action tag is respectively "add",
"delete-by-name", "delete-by-number" and whose name/number fields are
the added contact's pair, respectively the deleted stored record's
pair. -/
theorem success_appends_one_audit_entry
    {sta stb stc sta2 stb2 stc2 : AppState} {p : Person}
    {n num r1 r2 r3 : String}
    (h1 : add_person p sta = (.ok r1, sta2))
    (h2 : delete_by_name n stb = (.ok r2, stb2))
    (h3 : delete_by_number num stc = (.ok r3, stc2)) :
    sta2.audit_log = sta.audit_log ++
      [AuditLog.mk ("add") (some p.full_name) (some p.phone_number)] ∧
    (∃ c, stb.phonebook.find? (fun x => x.full_name == n) = some c ∧
      c.full_name = n ∧
      stb2.audit_log = stb.audit_log ++
        [AuditLog.mk ("delete-by-name") (some c.full_name)
          (some c.phone_number)]) ∧
    (∃ c, stc.phonebook.find? (fun x => x.phone_number == num) = some c ∧
      c.phone_number = num ∧
      stc2.audit_log = stc.audit_log ++
        [AuditLog.mk ("delete-by-number") (some c.full_name)
          (some c.phone_number)]) := by
  obtain ⟨-, -, -, -, -, hst⟩ := add_person_ok_inv h1
  obtain ⟨-, c2, hf2, hcn2, -, hst2⟩ := delete_by_name_ok_inv h2
  obtain ⟨-, c3, hf3, hcn3, -, hst3⟩ := delete_by_number_ok_inv h3
  subst hst
  subst hst2
  subst hst3
  exact ⟨rfl, ⟨c2, hf2, hcn2, rfl⟩, ⟨c3, hf3, hcn3, rfl⟩⟩

/-- C1 witness: one concrete successful add and the two deletes on a
one-row store. -/
theorem success_appends_one_audit_entry_witness :
    ((add_person pJohn emptyState).2).audit_log =
      emptyState.audit_log ++
      [AuditLog.mk ("add") (some pJohn.full_name)
        (some pJohn.phone_number)] ∧
    (∃ c, oneState.phonebook.find?
        (fun x => x.full_name == ("John Smith")) = some c ∧
      c.full_name = ("John Smith") ∧
      ((delete_by_name ("John Smith") oneState).2).audit_log =
        oneState.audit_log ++
        [AuditLog.mk ("delete-by-name") (some c.full_name)
          (some c.phone_number)]) ∧
    (∃ c, oneState.phonebook.find?
        (fun x => x.phone_number == ("12345")) = some c ∧
      c.phone_number = ("12345") ∧
      ((delete_by_number ("12345") oneState).2).audit_log =
        oneState.audit_log ++
        [AuditLog.mk ("delete-by-number") (some c.full_name)
          (some c.phone_number)]) :=
  success_appends_one_audit_entry
    (show add_person pJohn emptyState =
        (.ok ("Person added successfully"),
         AppState.mk [PhoneBook.mk ("John Smith") ("12345")]
           [AuditLog.mk ("add") (some ("John Smith")) (some ("12345"))])
      from by decide)
    (show delete_by_name ("John Smith") oneState =
        (.ok ("Person deleted successfully"),
         AppState.mk []
           [AuditLog.mk ("delete-by-name") (some ("John Smith"))
             (some ("12345"))])
      from by decide)
    (show delete_by_number ("12345") oneState =
        (.ok ("Person deleted successfully"),
         AppState.mk []
           [AuditLog.mk ("delete-by-number") (some ("John Smith"))
             (some ("12345"))])
      from by decide)

/-- C6: after a successful add of `p`, a well-formed add reusing
`p.phone_number` fails with the phone-number Conflict, a well-formed add
reusing `p.full_name` with a fresh number fails with the person
Conflict, and when both the number and the name are already present the
phone-number check fires first. -/
theorem add_conflict_after_success {st st1 : AppState} {p : Person}
    (q1 q2 q3 : Person) {r1 : String}
    (h : add_person p st = (.ok r1, st1)) :
    (q1.phone_number = p.phone_number →
      validate_full_name q1.full_name = true →
      add_person q1 st1 =
        (.error 400 ("Phone number already exists in the database"), st1)) ∧
    (q2.full_name = p.full_name →
      validate_phone_number q2.phone_number = true →
      st1.phonebook.find? (fun x => x.phone_number == q2.phone_number) =
        none →
      add_person q2 st1 =
        (.error 400 ("Person already exists in the database"), st1)) ∧
    (q3.full_name = p.full_name → q3.phone_number = p.phone_number →
      add_person q3 st1 =
        (.error 400 ("Phone number already exists in the database"), st1)) := by
  obtain ⟨hvn, hvp, hfnum, hfname, -, hst⟩ := add_person_ok_inv h
  subst hst
  refine ⟨?_, ?_, ?_⟩
  · intro hq hv
    simp only [add_person]
    simp only [hq]
    simp [hv, hvp, find?_append_none hfnum, List.find?]
  · intro hq hv hfresh
    have hfresh2 : (st.phonebook ++
        [PhoneBook.mk p.full_name p.phone_number]).find?
        (fun x => x.phone_number == q2.phone_number) = none := hfresh
    simp only [add_person]
    simp only [hq]
    simp [hv, hvn, hfresh2, find?_append_none hfname, List.find?]
  · intro hqn hqp
    simp only [add_person]
    simp only [hqn, hqp]
    simp [hvn, hvp, find?_append_none hfnum, List.find?]

/-- C6 witness: re-adds against the one-row state produced by adding
John Smith to the empty store. -/
theorem add_conflict_after_success_witness :
    (add_person (Person.mk ("Jane Roe") ("12345"))
        (AppState.mk [PhoneBook.mk ("John Smith") ("12345")]
          [AuditLog.mk ("add") (some ("John Smith")) (some ("12345"))]) =
      (.error 400 ("Phone number already exists in the database"),
       AppState.mk [PhoneBook.mk ("John Smith") ("12345")]
         [AuditLog.mk ("add") (some ("John Smith")) (some ("12345"))])) ∧
    (add_person (Person.mk ("John Smith") ("99999"))
        (AppState.mk [PhoneBook.mk ("John Smith") ("12345")]
          [AuditLog.mk ("add") (some ("John Smith")) (some ("12345"))]) =
      (.error 400 ("Person already exists in the database"),
       AppState.mk [PhoneBook.mk ("John Smith") ("12345")]
         [AuditLog.mk ("add") (some ("John Smith")) (some ("12345"))])) ∧
    (add_person pJohn
        (AppState.mk [PhoneBook.mk ("John Smith") ("12345")]
          [AuditLog.mk ("add") (some ("John Smith")) (some ("12345"))]) =
      (.error 400 ("Phone number already exists in the database"),
       AppState.mk [PhoneBook.mk ("John Smith") ("12345")]
         [AuditLog.mk ("add") (some ("John Smith")) (some ("12345"))])) := by
  have h := add_conflict_after_success
    (Person.mk ("Jane Roe") ("12345"))
    (Person.mk ("John Smith") ("99999"))
    pJohn
    (show add_person pJohn emptyState =
        (.ok ("Person added successfully"),
         AppState.mk [PhoneBook.mk ("John Smith") ("12345")]
           [AuditLog.mk ("add") (some ("John Smith")) (some ("12345"))])
      from by decide)
  exact ⟨h.1 (by decide) (by decide), h.2.1 (by decide) (by decide) (by decide),
         h.2.2 (by decide) (by decide)⟩

/-- C8: starting from a store whose names and numbers are each unique,
every operation — list, add, delete-by-name, delete-by-number — yields a
store that is again unique, so no reachable store holds two contacts
sharing a name or a number. -/
theorem operations_preserve_uniqueness (st : AppState)
    (hu : UniqueState st) (p : Person) (n num : String) :
    UniqueState (list_phonebook st).2 ∧
    UniqueState (add_person p st).2 ∧
    UniqueState (delete_by_name n st).2 ∧
    UniqueState (delete_by_number num st).2 := by
  obtain ⟨hu1, hu2⟩ := hu
  refine ⟨⟨hu1, hu2⟩, ?_, ?_, ?_⟩
  · unfold add_person
    split_ifs with h1 h2 h3 h4
    · exact ⟨hu1, hu2⟩
    · exact ⟨hu1, hu2⟩
    · exact ⟨hu1, hu2⟩
    · exact ⟨hu1, hu2⟩
    · rw [Option.not_isSome_iff_eq_none] at h3 h4
      constructor
      · show (st.phonebook ++
            [PhoneBook.mk p.full_name p.phone_number]).Pairwise _
        rw [List.pairwise_append]
        refine ⟨hu1, List.pairwise_singleton _ _, ?_⟩
        intro a ha b hb
        obtain rfl := List.mem_singleton.mp hb
        have hne := List.find?_eq_none.mp h4 a ha
        simpa using hne
      · show (st.phonebook ++
            [PhoneBook.mk p.full_name p.phone_number]).Pairwise _
        rw [List.pairwise_append]
        refine ⟨hu2, List.pairwise_singleton _ _, ?_⟩
        intro a ha b hb
        obtain rfl := List.mem_singleton.mp hb
        have hne := List.find?_eq_none.mp h3 a ha
        simpa using hne
  · unfold delete_by_name
    split_ifs with h1
    · exact ⟨hu1, hu2⟩
    · cases hfind : st.phonebook.find? (fun x => x.full_name == n) with
      | none => exact ⟨hu1, hu2⟩
      | some c =>
          constructor
          · exact List.Pairwise.sublist (List.eraseP_sublist _) hu1
          · exact List.Pairwise.sublist (List.eraseP_sublist _) hu2
  · unfold delete_by_number
    split_ifs with h1
    · exact ⟨hu1, hu2⟩
    · cases hfind : st.phonebook.find? (fun x => x.phone_number == num) with
      | none => exact ⟨hu1, hu2⟩
      | some c =>
          constructor
          · exact List.Pairwise.sublist (List.eraseP_sublist _) hu1
          · exact List.Pairwise.sublist (List.eraseP_sublist _) hu2

/-- C8 witness: the invariant holds on a one-row store and is preserved
by a concrete run of all four operations. -/
theorem operations_preserve_uniqueness_witness :
    UniqueState (list_phonebook oneState).2 ∧
    UniqueState (add_person (Person.mk ("Jane Roe") ("99999")) oneState).2 ∧
    UniqueState (delete_by_name ("John Smith") oneState).2 ∧
    UniqueState (delete_by_number ("12345") oneState).2 :=
  operations_preserve_uniqueness oneState
    (by constructor <;> simp [oneState, UniqueState])
    (Person.mk ("Jane Roe") ("99999")) ("John Smith") ("12345")

/-- C2: every accepted phone number has a leading contiguous digit run
of length at most 5, and every string beginning with 6 or more
consecutive digits is rejected regardless of what follows them. -/
theorem phone_leading_digit_run (s : String) :
    (validate_phone_number s = true → leadingDigitRun s ≤ 5) ∧
    (6 ≤ leadingDigitRun s → validate_phone_number s = false) := by
  have hrej : 6 ≤ leadingDigitRun s → validate_phone_number s = false := by
    intro h6
    have h6' : 6 ≤ (s.data.takeWhile (fun c => c.isDigit)).length := h6
    have hne := mch_sixDigits_ne_nil h6'
    have hnla : mch (.nla (.seq (reps 6 (.cls .digit))
        (.star .digit))) s.data = [] := mch_nla_nil_of_ne hne
    have hmain : mch phonePattern s.data = [] := by
      unfold phonePattern
      exact mch_seq_nil_of_left hnla
    exact reMatch_eq_false hmain
  refine ⟨?_, hrej⟩
  intro hv
  by_contra hgt
  push_neg at hgt
  have h6 : 6 ≤ leadingDigitRun s := hgt
  rw [hrej h6] at hv
  exact Bool.noConfusion hv

/-- C2 witness: an accepted number with run 5, a rejected six-digit
run. -/
theorem phone_leading_digit_run_witness :
    leadingDigitRun ("12345") ≤ 5 ∧
    validate_phone_number ("123456") = false :=
  ⟨(phone_leading_digit_run ("12345")).1 (by decide),
   (phone_leading_digit_run ("123456")).2 (by decide)⟩

/-- C9: every accepted phone number contains at least five digit
characters; any string with fewer digits — the empty string included —
is rejected. -/
theorem phone_min_five_digits (s : String) :
    (validate_phone_number s = true → 5 ≤ digitCount s) ∧
    (digitCount s < 5 → validate_phone_number s = false) := by
  have hmain : validate_phone_number s = true → 5 ≤ digitCount s := by
    intro hv
    have hne : mch phonePattern s.data ≠ [] := reMatch_ne_nil hv
    obtain ⟨t, ht⟩ := List.exists_mem_of_ne_nil _ hne
    obtain ⟨u, hsplit, hcnt⟩ := mch_minDigits phonePattern s.data t ht
    have h5 : minDigits phonePattern = 5 := by decide
    rw [h5] at hcnt
    have hdc : digitCount s =
        u.countP (fun c => c.isDigit) + t.countP (fun c => c.isDigit) := by
      unfold digitCount
      rw [hsplit, List.countP_append]
    omega
  refine ⟨hmain, ?_⟩
  intro hlt
  cases hb : validate_phone_number s with
  | false => rfl
  | true =>
      have := hmain hb
      omega

/-- C9 witness: five digits accepted; four digits rejected. -/
theorem phone_min_five_digits_witness :
    5 ≤ digitCount ("12345") ∧ validate_phone_number ("1234") = false :=
  ⟨(phone_min_five_digits ("12345")).1 (by decide),
   (phone_min_five_digits ("1234")).2 (by decide)⟩

/-- C3 counterexample: the 36-character string of 35 letters followed by
a newline is accepted by validate_full_name — Python's `$` matches just
before a trailing newline — so acceptance does not bound the length by
35. -/
theorem name_length_claim_counterexample :
    validate_full_name longNameStr = true ∧ longNameStr.length = 36 :=
  ⟨by decide, by decide⟩

/-- C3 (amended): every accepted name has length between 1 and 36;
unless its final character is a newline its length is at most 35 (the
lookahead allows at most 35 non-newline characters before `$`, and `$`
additionally admits one trailing newline); and the whole string, up to
that optional trailing newline, matches one of the seven shape
alternatives.  In particular the empty string is rejected. -/
theorem name_length_bounds {s : String} (h : validate_full_name s = true) :
    1 ≤ s.length ∧ s.length ≤ 36 ∧
    (s.data.getLast? ≠ some (Char.ofNat 10) → s.length ≤ 35) ∧
    ∃ t, t ∈ mch nameAlts s.data ∧ (t = [] ∨ t = [Char.ofNat 10]) := by
  have hne : mch namePattern s.data ≠ [] := reMatch_ne_nil h
  obtain ⟨t0, ht0⟩ := List.exists_mem_of_ne_nil _ hne
  have ht0' : t0 ∈ mch (.seq (.pla (.seq (repRange 1 35 .anyNoNL) .eos))
      (.seq nameAlts .eos)) s.data := ht0
  obtain ⟨u, hu, htu⟩ := mem_mch_seq.mp ht0'
  obtain ⟨hL, rfl⟩ := mem_mch_pla.mp hu
  obtain ⟨tL, htL⟩ := List.exists_mem_of_ne_nil _ hL
  obtain ⟨v, hv, hvL⟩ := mem_mch_seq.mp htL
  obtain ⟨rfl, hend⟩ := mem_mch_eos.mp hvL
  obtain ⟨w, hsplit, hwmin, hwmax⟩ :=
    mch_lenBounds (repRange 1 35 .anyNoNL) (by decide) s.data tL hv
  have hminval : minLen (repRange 1 35 .anyNoNL) = 1 := by decide
  have hmaxval : maxLen (repRange 1 35 .anyNoNL) = 35 := by decide
  rw [hminval] at hwmin
  rw [hmaxval] at hwmax
  have hlen : s.length = w.length + tL.length := by
    show s.data.length = _
    rw [hsplit, List.length_append]
  obtain ⟨x, hx, htx⟩ := mem_mch_seq.mp htu
  obtain ⟨rfl, hend2⟩ := mem_mch_eos.mp htx
  rcases hend with rfl | rfl
  · rw [List.length_nil] at hlen
    exact ⟨by omega, by omega, fun _ => by omega, t0, hx, hend2⟩
  · rw [List.length_singleton] at hlen
    refine ⟨by omega, by omega, ?_, t0, hx, hend2⟩
    intro hne2
    exfalso
    apply hne2
    rw [hsplit]
    exact List.getLast?_concat _

/-- C3 amended-claim witness: the bounds evaluated on an accepted
name. -/
theorem name_length_bounds_witness :
    1 ≤ ("John Smith" : String).length ∧
    ("John Smith" : String).length ≤ 36 ∧
    (("John Smith" : String).data.getLast? ≠ some (Char.ofNat 10) →
      ("John Smith" : String).length ≤ 35) ∧
    ∃ t, t ∈ mch nameAlts ("John Smith" : String).data ∧
      (t = [] ∨ t = [Char.ofNat 10]) :=
  name_length_bounds (by decide)

/-- C10: validate_full_name accepts a hyphen-containing string only when
it also contains an apostrophe: the hyphen occurs in no shape
alternative but the apostrophe one. -/
theorem name_hyphen_needs_apostrophe {s : String}
    (hv : validate_full_name s = true) (hh : '-' ∈ s.data) :
    aposChar ∈ s.data := by
  have hne : mch namePattern s.data ≠ [] := reMatch_ne_nil hv
  obtain ⟨t0, ht0⟩ := List.exists_mem_of_ne_nil _ hne
  have ht0' : t0 ∈ mch (.seq (.pla (.seq (repRange 1 35 .anyNoNL) .eos))
      (.seq nameAlts .eos)) s.data := ht0
  obtain ⟨u, hu, htu⟩ := mem_mch_seq.mp ht0'
  obtain ⟨-, rfl⟩ := mem_mch_pla.mp hu
  obtain ⟨x, hx, htx⟩ := mem_mch_seq.mp htu
  obtain ⟨rfl, hend⟩ := mem_mch_eos.mp htx
  have hhx : ('-' : Char) ∉ t0 := by
    rcases hend with rfl | rfl
    · exact List.not_mem_nil _
    · intro hmem
      have := List.mem_singleton.mp hmem
      exact absurd this (by decide)
  have hnh : ∀ cc c,
      (!(cc == CC.hyphen || cc == CC.dotDash || cc == CC.wsDotDash ||
         cc == CC.anyNoNL)) = true → ccMatch cc c = true → c ≠ '-' := by
    intro cc c h1 h2 heq
    subst heq
    cases cc <;> revert h1 h2 <;> decide
  have hkill : ∀ r : RE,
      clsOnly (fun cc => !(cc == CC.hyphen || cc == CC.dotDash ||
        cc == CC.wsDotDash || cc == CC.anyNoNL)) r = true →
      t0 ∈ mch r s.data → False := by
    intro r hr hxr
    obtain ⟨pre, hsp, hpre⟩ := mch_clsOnly hnh r hr s.data t0 hxr
    have hmem : ('-' : Char) ∈ pre := by
      rcases List.mem_append.mp (hsp ▸ hh) with hmem | hmem
      · exact hmem
      · exact absurd hmem hhx
    exact hpre ('-') hmem rfl
  have hx' : t0 ∈ mch nameAlt1 s.data ∨ t0 ∈ mch nameAlt2 s.data ∨
      t0 ∈ mch nameAlt3 s.data ∨ t0 ∈ mch nameAlt4 s.data ∨
      t0 ∈ mch nameAlt5 s.data ∨ t0 ∈ mch nameAlt6 s.data ∨
      t0 ∈ mch nameAlt7 s.data := by
    have hx2 : t0 ∈ mch (.alt nameAlt1 (.alt nameAlt2 (.alt nameAlt3
        (.alt nameAlt4 (.alt nameAlt5 (.alt nameAlt6 nameAlt7)))))) s.data :=
      hx
    simp only [mem_mch_alt] at hx2
    tauto
  rcases hx' with h | h | h | h | h | h | h
  · exact (hkill nameAlt1 (by decide) h).elim
  · exact (hkill nameAlt2 (by decide) h).elim
  · obtain ⟨pre, hsp, c, hc, hcm⟩ :=
      mch_needsCC .apos nameAlt3 (by decide) s.data t0 h
    have hca : c = aposChar := by simpa [ccMatch] using hcm
    subst hca
    rw [hsp]
    exact List.mem_append.mpr (Or.inl hc)
  · exact (hkill nameAlt4 (by decide) h).elim
  · exact (hkill nameAlt5 (by decide) h).elim
  · exact (hkill nameAlt6 (by decide) h).elim
  · exact (hkill nameAlt7 (by decide) h).elim

/-- C10 witness: a hyphenated accepted name; the theorem yields its
apostrophe. -/
theorem name_hyphen_needs_apostrophe_witness :
    aposChar ∈ hyphenName.data :=
  name_hyphen_needs_apostrophe (by decide) (by decide)
